import Mathlib

/-!
# Verification of the referendum data pipeline (`pandas_questions.py`)

Shallow embedding of the four transformation steps of the pipeline:

* `merge_regions_and_departments`  (AreaMerger)
* `merge_referendum_and_areas`     (ReferendumJoiner)
* `compute_referendum_result_by_regions` (RegionAggregator)
* the ratio computation of `plot_referendum_map` (MapRenderer)

Tables are embedded as lists of records; a missing (NaN) cell is `none`.
The pandas operations used by the source are embedded with their
documented semantics:

* `astype(str)` maps a missing value to the literal string `"nan"`;
* `Series.str.contains("Z", na=False)` on an all-string column is a
  per-character containment test for `'Z'`;
* `Series.str.zfill(w)` left-pads with `'0'` to width `w` with no special
  handling of a leading sign (pandas docs: "Differs from str.zfill() which
  has special handling for '+'/'-'");
* `merge(..., how="left")` keeps the left row order and emits one output
  row per matching right row, or a single row with null right fields when
  there is no match;
* `dropna()` keeps exactly the rows with no missing value in any column;
* `groupby(k)` (default `sort=True`) produces one group per distinct key,
  keys in ascending order; `"first"` takes the first row of the group in
  input order and `"sum"` adds the column over the group.
-/

namespace PandasQuestions

/-- A row of the (renamed) regions table: columns `code`, `name`. -/
structure Region where
  code : Option String
  name : Option String
deriving DecidableEq, Repr

/-- A row of the (renamed) departments table: columns `region_code`,
`code`, `name`. -/
structure Department where
  region_code : Option String
  code : Option String
  name : Option String
deriving DecidableEq, Repr

/-- A row of the output of `merge_regions_and_departments`, projected to
the four columns `[code_reg, name_reg, code_dep, name_dep]`. -/
structure AreaRecord where
  code_reg : Option String
  name_reg : Option String
  code_dep : Option String
  name_dep : Option String
deriving DecidableEq, Repr

/-- The block of output rows a single department row contributes to the
left merge `departments_renamed.merge(regions_renamed, on="code_reg",
how="left")`: one row per region with matching `code_reg`, or a single
row with null region fields when no region matches. -/
def leftJoinRegions (regions : List Region) (d : Department) : List AreaRecord :=
  if (regions.filter (fun r => r.code == d.region_code)).isEmpty then
    [⟨d.region_code, none, d.code, d.name⟩]
  else
    (regions.filter (fun r => r.code == d.region_code)).map
      (fun r => ⟨d.region_code, r.name, d.code, d.name⟩)

/-- Embedding of `merge_regions_and_departments` (src lines 26-51):
left-merge the renamed departments against the renamed regions on
`code_reg`, then project to `[code_reg, name_reg, code_dep, name_dep]`.
The column renames are reflected in the field names of `Region`,
`Department` and `AreaRecord`; the projection is the `AreaRecord` type. -/
def merge_regions_and_departments (regions : List Region)
    (departments : List Department) : List AreaRecord :=
  departments.flatMap (leftJoinRegions regions)

/-- A row of the referendum table, restricted to the columns the pipeline
reads: `Department code` and the five vote-count columns. -/
structure ReferendumRow where
  dep_code : Option String
  registered : Option Int
  abstentions : Option Int
  nulls : Option Int
  choiceA : Option Int
  choiceB : Option Int
deriving DecidableEq, Repr

/-- `astype(str)` applied to one cell: a missing value becomes the
literal string `"nan"`. -/
def astypeStr : Option String → String
  | none => "nan"
  | some s => s

/-- Character containment on a string, the semantics of
`.str.contains("Z")` for the single-character needle `"Z"`. -/
def containsChar (s : String) (c : Char) : Bool :=
  s.data.contains c

/-- Embedding of `.str.zfill(2)` on one cell: left-pad with `'0'` to
width 2 (pandas `zfill` has no special handling for a leading sign). -/
def zfill2 (s : String) : String :=
  if s.length < 2 then String.mk (List.replicate (2 - s.length) '0') ++ s
  else s

/-- The first step of `merge_referendum_and_areas` (src lines 60-64):
keep the rows whose `Department code`, after `astype(str)`, does not
contain `'Z'`. -/
def filterZ (referendum : List ReferendumRow) : List ReferendumRow :=
  referendum.filter (fun r => !(containsChar (astypeStr r.dep_code) 'Z'))

/-- The `code_dep` column assigned on src lines 66-70:
`astype(str)` then `zfill(2)` of the `Department code`. -/
def refCodeDep (r : ReferendumRow) : String :=
  zfill2 (astypeStr r.dep_code)

/-- A row of the merge on src lines 72-76: the referendum columns
(including the original `Department code`), the assigned `code_dep`
(a string, never missing, since it came from `astype(str)`), and the
area columns brought in by the join (missing when unmatched). -/
structure JoinedRow where
  dep_code : Option String
  registered : Option Int
  abstentions : Option Int
  nulls : Option Int
  choiceA : Option Int
  choiceB : Option Int
  code_dep : String
  code_reg : Option String
  name_reg : Option String
  name_dep : Option String
deriving DecidableEq, Repr

/-- Build one output row of the referendum/area merge. -/
def mkJoined (r : ReferendumRow) (c : String)
    (creg nreg ndep : Option String) : JoinedRow :=
  ⟨r.dep_code, r.registered, r.abstentions, r.nulls, r.choiceA, r.choiceB,
   c, creg, nreg, ndep⟩

/-- The block of rows one filtered referendum row contributes to the left
merge on `code_dep`: one row per area record whose `code_dep` equals the
assigned code, or a single row with null area fields when none matches. -/
def joinAreas (areas : List AreaRecord) (r : ReferendumRow) : List JoinedRow :=
  if (areas.filter (fun a => a.code_dep == some (refCodeDep r))).isEmpty then
    [mkJoined r (refCodeDep r) none none none]
  else
    (areas.filter (fun a => a.code_dep == some (refCodeDep r))).map
      (fun a => mkJoined r (refCodeDep r) a.code_reg a.name_reg a.name_dep)

/-- `dropna()` on one row: `true` iff no column of the row is missing
(`code_dep` is a plain string, so only the nine optional columns are
tested). -/
def rowComplete (row : JoinedRow) : Bool :=
  row.dep_code.isSome && row.registered.isSome && row.abstentions.isSome &&
  row.nulls.isSome && row.choiceA.isSome && row.choiceB.isSome &&
  row.code_reg.isSome && row.name_reg.isSome && row.name_dep.isSome

/-- Embedding of `merge_referendum_and_areas` (src lines 54-80): filter
out `'Z'` codes, assign `code_dep = zfill(2)` of the code as text,
left-merge against the area table on `code_dep`, then `dropna()`. -/
def merge_referendum_and_areas (referendum : List ReferendumRow)
    (areas : List AreaRecord) : List JoinedRow :=
  ((filterZ referendum).flatMap (joinAreas areas)).filter rowComplete

/-- The referendum-side columns of a joined row (used to feed the
joiner's output back into the joiner as a referendum table). -/
def projRef (row : JoinedRow) : ReferendumRow :=
  ⟨row.dep_code, row.registered, row.abstentions, row.nulls,
   row.choiceA, row.choiceB⟩

/-- A row of the input of `compute_referendum_result_by_regions`.  In the
pipeline this input is the output of `merge_referendum_and_areas`, which
has been through `dropna()`, so every column is present (non-optional
fields). -/
structure ReferendumAreaRow where
  code_reg : String
  name_reg : String
  registered : Int
  abstentions : Int
  nulls : Int
  choiceA : Int
  choiceB : Int
deriving DecidableEq, Repr

/-- A row of the output of `compute_referendum_result_by_regions`:
the index `code_reg`, plus `name_reg` and the five summed counts. -/
structure RegionResult where
  code_reg : String
  name_reg : String
  registered : Int
  abstentions : Int
  nulls : Int
  choiceA : Int
  choiceB : Int
deriving DecidableEq, Repr

/-- The group of input rows sharing a given `code_reg`, in input order. -/
def groupRows (rows : List ReferendumAreaRow) (k : String) :
    List ReferendumAreaRow :=
  rows.filter (fun r => r.code_reg == k)

/-- The aggregation dictionary of src lines 93-102 applied to one group:
`name_reg` is `"first"`, the five counts are `"sum"`. -/
def aggGroup (k : String) (g : List ReferendumAreaRow) : RegionResult :=
  { code_reg := k
    name_reg := (g.head?.map ReferendumAreaRow.name_reg).getD ""
    registered := (g.map ReferendumAreaRow.registered).sum
    abstentions := (g.map ReferendumAreaRow.abstentions).sum
    nulls := (g.map ReferendumAreaRow.nulls).sum
    choiceA := (g.map ReferendumAreaRow.choiceA).sum
    choiceB := (g.map ReferendumAreaRow.choiceB).sum }

/-- The distinct `code_reg` values of the input, in ascending order: the
group keys of `groupby("code_reg")` with its default `sort=True`. -/
def regionKeys (rows : List ReferendumAreaRow) : List String :=
  (rows.map ReferendumAreaRow.code_reg).toFinset.sort (· ≤ ·)

/-- Embedding of `compute_referendum_result_by_regions` (src lines
83-107): group by `code_reg` and aggregate each group; the output is
indexed by `code_reg` (field of `RegionResult`), rows in group-key
order. -/
def compute_referendum_result_by_regions (rows : List ReferendumAreaRow) :
    List RegionResult :=
  (regionKeys rows).map (fun k => aggGroup k (groupRows rows k))

/-- A pandas float cell: a (finite) numeric value, NaN, or an
infinity.  Finite values are modelled as rationals, which is exact for
the division of integer counts performed by the source. -/
inductive PandasFloat where
  | val (q : ℚ)
  | nan
  | posInf
  | negInf
deriving DecidableEq, Repr

/-- Pandas element-wise float division: `0 / 0` is NaN, `x / 0` for
nonzero `x` is a signed infinity, and no exception is ever raised. -/
def floatDiv (a b : ℚ) : PandasFloat :=
  if b = 0 then
    if a = 0 then PandasFloat.nan
    else if 0 < a then PandasFloat.posInf
    else PandasFloat.negInf
  else PandasFloat.val (a / b)

/-- The per-row ratio of src lines 118-120:
`gdf["Choice A"] / (gdf["Choice A"] + gdf["Choice B"])`. -/
def choiceRatio (choiceA choiceB : Int) : PandasFloat :=
  floatDiv (choiceA : ℚ) ((choiceA : ℚ) + (choiceB : ℚ))

/-! ### Concrete demonstration tables used by the witnesses -/

/-- A one-row regions table. -/
def demoRegions : List Region :=
  [⟨some "84", some "Auvergne"⟩]

/-- A two-row departments table, both rows pointing at region `84`. -/
def demoDepartments : List Department :=
  [⟨some "84", some "01", some "Ain"⟩, ⟨some "84", some "02", some "Aisne"⟩]

/-- A referendum table with one mainland row (code `"1"`) and one
overseas row (code `"ZA"`). -/
def demoReferendum : List ReferendumRow :=
  [⟨some "1", some 100, some 10, some 5, some 50, some 35⟩,
   ⟨some "ZA", some 7, some 7, some 7, some 7, some 7⟩]

/-- An area table resolving department `01` to region `84`. -/
def demoAreas : List AreaRecord :=
  [⟨some "84", some "Auvergne", some "01", some "Ain"⟩]

/-- The single joined row produced from `demoReferendum` and
`demoAreas`. -/
def demoJoined : JoinedRow :=
  ⟨some "1", some 100, some 10, some 5, some 50, some 35,
   "01", some "84", some "Auvergne", some "Ain"⟩

/-- A referendum row whose `Department code` is missing. -/
def rowMissingCode : ReferendumRow :=
  ⟨none, some 1, some 2, some 3, some 4, some 5⟩

/-- Two aggregator input rows sharing `code_reg = "84"`. -/
def demoAggRows : List ReferendumAreaRow :=
  [⟨"84", "Auvergne", 100, 10, 1, 60, 29⟩,
   ⟨"84", "Auvergne", 200, 20, 2, 120, 58⟩]

/-! ### Helper lemmas -/

/-- A string does not contain a character exactly when the character is
not among its data. -/
lemma containsChar_false_iff (s : String) (c : Char) :
    containsChar s c = false ↔ c ∉ s.data := by
  rw [containsChar, ← Bool.not_eq_true, List.elem_iff]

/-- Zero-padding never introduces a `'Z'`. -/
lemma containsChar_zfill2 (s : String)
    (h : containsChar s 'Z' = false) : containsChar (zfill2 s) 'Z' = false := by
  rw [containsChar_false_iff] at h ⊢
  unfold zfill2
  split
  · rw [String.data_append]
    intro hmem
    rcases List.mem_append.mp hmem with hpad | hs
    · exact absurd (List.eq_of_mem_replicate hpad) (by decide)
    · exact h hs
  · exact h

/-- `zfill2` leaves a string of length at least 2 unchanged. -/
lemma zfill2_of_two_le (s : String) (h : 2 ≤ s.length) : zfill2 s = s := by
  unfold zfill2
  rw [if_neg (by omega)]

/-- `zfill2` prepends a single `'0'` to a one-character string. -/
lemma zfill2_of_length_one (s : String) (h : s.length = 1) :
    zfill2 s = "0" ++ s := by
  unfold zfill2
  rw [if_pos (by omega), h]
  rfl

/-- The referendum-side fields of any row built by `joinAreas`, and its
`code_dep`. -/
lemma mem_joinAreas {areas : List AreaRecord} {r : ReferendumRow}
    {row : JoinedRow} (h : row ∈ joinAreas areas r) :
    row.dep_code = r.dep_code ∧ row.registered = r.registered ∧
    row.abstentions = r.abstentions ∧ row.nulls = r.nulls ∧
    row.choiceA = r.choiceA ∧ row.choiceB = r.choiceB ∧
    row.code_dep = refCodeDep r := by
  unfold joinAreas at h
  split at h
  · rw [List.mem_singleton] at h
    subst h
    exact ⟨rfl, rfl, rfl, rfl, rfl, rfl, rfl⟩
  · rcases List.mem_map.mp h with ⟨a, _, ha⟩
    subst ha
    exact ⟨rfl, rfl, rfl, rfl, rfl, rfl, rfl⟩

/-- Membership in the joiner's output: the row is complete, its
department code contains no `'Z'` after text conversion, and its
`code_dep` is re-derivable from its own referendum fields. -/
lemma mem_merge_referendum_and_areas {referendum : List ReferendumRow}
    {areas : List AreaRecord} {row : JoinedRow}
    (h : row ∈ merge_referendum_and_areas referendum areas) :
    rowComplete row = true ∧
    containsChar (astypeStr row.dep_code) 'Z' = false ∧
    row.code_dep = refCodeDep (projRef row) := by
  unfold merge_referendum_and_areas at h
  rcases List.mem_filter.mp h with ⟨hmem, hcomp⟩
  rcases List.mem_flatMap.mp hmem with ⟨r, hr, hrow⟩
  rcases List.mem_filter.mp hr with ⟨_, hz⟩
  obtain ⟨hdep, _, _, _, _, _, hcd⟩ := mem_joinAreas hrow
  have hz' : containsChar (astypeStr r.dep_code) 'Z' = false := by
    simpa using hz
  refine ⟨hcomp, ?_, ?_⟩
  · rw [hdep]
    exact hz'
  · rw [hcd]
    unfold refCodeDep projRef
    rw [hdep]

/-! ### Claim C1 -/

/-- Claim C1, counterexample: a referendum row whose `Department code` is
missing is NOT excluded by the first filtering step of
`merge_referendum_and_areas` — `astype(str)` turns the missing value into
the string `"nan"`, which contains no `'Z'`, so the row passes the
filter (it is only removed later, by `dropna()`). -/
theorem joiner_missing_code_cex : rowMissingCode ∈ filterZ [rowMissingCode] := by
  decide

/-- Claim C1 as amended: the first filtering step of
`merge_referendum_and_areas` excludes exactly the rows whose department
code, converted to text, contains `'Z'`; rows with a missing department
code pass this filter (their text form is `"nan"`); and no row of the
final output has a department-code-derived text containing `'Z'`, nor a
missing department code. -/
theorem joiner_z_filter (referendum : List ReferendumRow)
    (areas : List AreaRecord) :
    (∀ r ∈ referendum, containsChar (astypeStr r.dep_code) 'Z' = true →
        r ∉ filterZ referendum)
  ∧ (∀ r ∈ referendum, r.dep_code = none → r ∈ filterZ referendum)
  ∧ (∀ row ∈ merge_referendum_and_areas referendum areas,
        containsChar row.code_dep 'Z' = false ∧ row.dep_code ≠ none) := by
  refine ⟨?_, ?_, ?_⟩
  · intro r _ hz hmem
    rcases List.mem_filter.mp hmem with ⟨_, hcond⟩
    rw [hz] at hcond
    exact absurd hcond (by decide)
  · intro r hr hdep
    refine List.mem_filter.mpr ⟨hr, ?_⟩
    rw [hdep]
    decide
  · intro row hrow
    obtain ⟨hcomp, hz, hcd⟩ := mem_merge_referendum_and_areas hrow
    constructor
    · rw [hcd]
      exact containsChar_zfill2 (astypeStr row.dep_code) hz
    · simp only [rowComplete, Bool.and_eq_true] at hcomp
      exact Option.ne_none_iff_isSome.mpr hcomp.1.1.1.1.1.1.1.1
/-- Claim C1 witness: the demonstration row with code `"ZA"` is excluded
by the filter, and the joined demonstration row's `code_dep` contains no
`'Z'`. -/
theorem joiner_z_filter_witness :
    (⟨some "ZA", some 7, some 7, some 7, some 7, some 7⟩ : ReferendumRow)
      ∉ filterZ demoReferendum
  ∧ containsChar demoJoined.code_dep 'Z' = false := by
  exact ⟨(joiner_z_filter demoReferendum demoAreas).1 _ (by decide) (by decide),
    ((joiner_z_filter demoReferendum demoAreas).2.2 demoJoined (by decide)).1⟩

/-! ### Claim C4 -/

/-- Claim C4: every row of the joiner's output has every column present:
the `dropna()` step removes every row with a missing referendum field and
every row whose department code found no area match. -/
theorem joiner_no_missing (referendum : List ReferendumRow)
    (areas : List AreaRecord) :
    ∀ row ∈ merge_referendum_and_areas referendum areas,
      row.dep_code.isSome = true ∧ row.registered.isSome = true ∧
      row.abstentions.isSome = true ∧ row.nulls.isSome = true ∧
      row.choiceA.isSome = true ∧ row.choiceB.isSome = true ∧
      row.code_reg.isSome = true ∧ row.name_reg.isSome = true ∧
      row.name_dep.isSome = true := by
  intro row hrow
  have hcomp := (mem_merge_referendum_and_areas hrow).1
  simp only [rowComplete, Bool.and_eq_true] at hcomp
  obtain ⟨⟨⟨⟨⟨⟨⟨⟨h1, h2⟩, h3⟩, h4⟩, h5⟩, h6⟩, h7⟩, h8⟩, h9⟩ := hcomp
  exact ⟨h1, h2, h3, h4, h5, h6, h7, h8, h9⟩
/-- Claim C4 witness: the joined demonstration row, a member of the
joiner's output on the demonstration tables, has its first and last
columns present. -/
theorem joiner_no_missing_witness :
    demoJoined.dep_code.isSome = true ∧ demoJoined.name_dep.isSome = true := by
  have h := joiner_no_missing demoReferendum demoAreas demoJoined (by decide)
  exact ⟨h.1, h.2.2.2.2.2.2.2.2⟩

/-! ### Claim C5 -/

/-- Claim C5: every output row's `code_dep` is its department code
converted to text and left-padded with `'0'` to width 2; padding leaves
strings of length at least 2 unchanged and turns a one-character string
`s` into `"0" ++ s`. -/
theorem joiner_code_dep_padding (referendum : List ReferendumRow)
    (areas : List AreaRecord) :
    (∀ row ∈ merge_referendum_and_areas referendum areas,
        row.code_dep = zfill2 (astypeStr row.dep_code))
  ∧ (∀ s : String, 2 ≤ s.length → zfill2 s = s)
  ∧ (∀ s : String, s.length = 1 → zfill2 s = "0" ++ s) := by
  refine ⟨?_, zfill2_of_two_le, zfill2_of_length_one⟩
  intro row hrow
  exact (mem_merge_referendum_and_areas hrow).2.2
/-- Claim C5 witness: the joined demonstration row (department code
`"1"`, `code_dep` `"01"`) satisfies the padding law, `"84"` is left
unchanged, and `"1"` is padded to `"0" ++ "1"`. -/
theorem joiner_code_dep_padding_witness :
    demoJoined.code_dep = zfill2 (astypeStr demoJoined.dep_code)
  ∧ zfill2 "84" = "84" ∧ zfill2 "1" = "0" ++ "1" := by
  exact ⟨(joiner_code_dep_padding demoReferendum demoAreas).1 demoJoined (by decide),
    (joiner_code_dep_padding [] []).2.1 "84" (by decide),
    (joiner_code_dep_padding [] []).2.2 "1" (by decide)⟩

/-! ### AreaMerger lemmas, claims C2 and C7 -/

/-- Every row of a department's block of the left merge carries that
department's key, code and name. -/
lemma mem_leftJoinRegions {regions : List Region} {d : Department}
    {a : AreaRecord} (h : a ∈ leftJoinRegions regions d) :
    a.code_reg = d.region_code ∧ a.code_dep = d.code ∧ a.name_dep = d.name := by
  unfold leftJoinRegions at h
  split at h
  · rw [List.mem_singleton] at h
    subst h
    exact ⟨rfl, rfl, rfl⟩
  · rcases List.mem_map.mp h with ⟨r, _, hr⟩
    subst hr
    exact ⟨rfl, rfl, rfl⟩

/-- A department's block of the left merge is never empty. -/
lemma leftJoinRegions_ne_nil (regions : List Region) (d : Department) :
    leftJoinRegions regions d ≠ [] := by
  unfold leftJoinRegions
  split
  · simp
  · rename_i h
    intro h0
    rw [List.map_eq_nil_iff] at h0
    rw [h0] at h
    simp at h

/-- When at most one region matches, a department's block has exactly
one row. -/
lemma length_leftJoinRegions (regions : List Region) (d : Department)
    (h : (regions.filter (fun r => r.code == d.region_code)).length ≤ 1) :
    (leftJoinRegions regions d).length = 1 := by
  unfold leftJoinRegions
  split
  · rfl
  · rename_i hne
    rw [List.length_map]
    have h0 : (regions.filter (fun r => r.code == d.region_code)).length ≠ 0 := by
      intro h0
      rw [List.length_eq_zero] at h0
      rw [h0] at hne
      simp at hne
    omega

/-- When the region keys are pairwise distinct, at most one region
matches any given key. -/
lemma length_filter_region_key {regions : List Region}
    (hnd : (regions.map Region.code).Nodup) (k : Option String) :
    (regions.filter (fun r => r.code == k)).length ≤ 1 := by
  induction regions with
  | nil => simp
  | cons x t ih =>
    rw [List.map_cons, List.nodup_cons] at hnd
    rw [List.filter_cons]
    split
    · rename_i hx
      have hk : x.code = k := eq_of_beq hx
      have ht : t.filter (fun r => r.code == k) = [] := by
        rw [List.filter_eq_nil_iff]
        intro r hr hbeq
        have hrk : r.code = k := eq_of_beq hbeq
        exact hnd.1 (by
          rw [hk, ← hrk]
          exact List.mem_map_of_mem Region.code hr)
      rw [ht]
      simp
    · exact ih hnd.2

/-! ### Claim C2 -/

/-- Claim C2, counterexample: when the regions table repeats a
`code_reg` (here twice `"84"`), the left merge duplicates the matching
department row, so the output has more rows than the departments
input. -/
theorem areaMerger_shape_cex :
    (merge_regions_and_departments
        [⟨some "84", some "Auvergne A"⟩, ⟨some "84", some "Auvergne B"⟩]
        [⟨some "84", some "01", some "Ain"⟩]).length
      ≠ ([⟨some "84", some "01", some "Ain"⟩] : List Department).length := by
  decide

/-- Claim C2 as amended: provided no two rows of the regions table share
a `code` (the Region identity of the data model), the output of
`merge_regions_and_departments` has exactly as many rows as the
departments input — duplicate department rows are kept, no deduplication
— and every output row consists of the four fields taken from its
department row (with `name_reg` resolved by the join). -/
theorem areaMerger_shape (regions : List Region)
    (departments : List Department)
    (hnd : (regions.map Region.code).Nodup) :
    (merge_regions_and_departments regions departments).length
      = departments.length
  ∧ ∀ a ∈ merge_regions_and_departments regions departments,
      ∃ d ∈ departments, a.code_reg = d.region_code ∧ a.code_dep = d.code
        ∧ a.name_dep = d.name := by
  constructor
  · unfold merge_regions_and_departments
    induction departments with
    | nil => rfl
    | cons d t ih =>
      rw [List.flatMap_cons, List.length_append, ih,
        length_leftJoinRegions regions d (length_filter_region_key hnd _),
        List.length_cons]
      omega
  · intro a ha
    rcases List.mem_flatMap.mp ha with ⟨d, hd, hblock⟩
    exact ⟨d, hd, mem_leftJoinRegions hblock⟩
/-- Claim C2 witness: on the demonstration tables (distinct region
codes, two departments) the output has two rows, and its first row's
fields come from the first department. -/
theorem areaMerger_shape_witness :
    (merge_regions_and_departments demoRegions demoDepartments).length
      = demoDepartments.length
  ∧ ∃ d ∈ demoDepartments,
      (⟨some "84", some "Auvergne", some "01", some "Ain"⟩ : AreaRecord).code_reg
          = d.region_code
        ∧ (⟨some "84", some "Auvergne", some "01", some "Ain"⟩ : AreaRecord).code_dep
          = d.code
        ∧ (⟨some "84", some "Auvergne", some "01", some "Ain"⟩ : AreaRecord).name_dep
          = d.name := by
  exact ⟨(areaMerger_shape demoRegions demoDepartments (by decide)).1,
    (areaMerger_shape demoRegions demoDepartments (by decide)).2 _ (by decide)⟩

/-! ### Claim C7 -/

/-- Claim C7: a department row whose `region_code` matches no region is
kept (no error is possible: the embedding is total), with `name_reg`
null; and department row order is preserved: the department codes form,
in order, a sublist of the output's `code_dep` column. -/
theorem areaMerger_unmatched (regions : List Region)
    (departments : List Department) :
    (∀ d ∈ departments, (∀ r ∈ regions, r.code ≠ d.region_code) →
        (⟨d.region_code, none, d.code, d.name⟩ : AreaRecord)
          ∈ merge_regions_and_departments regions departments)
  ∧ (departments.map Department.code).Sublist
      ((merge_regions_and_departments regions departments).map
        AreaRecord.code_dep) := by
  constructor
  · intro d hd hnone
    refine List.mem_flatMap.mpr ⟨d, hd, ?_⟩
    have hfil : regions.filter (fun r => r.code == d.region_code) = [] := by
      rw [List.filter_eq_nil_iff]
      intro r hr hbeq
      exact hnone r hr (eq_of_beq hbeq)
    unfold leftJoinRegions
    rw [hfil]
    simp
  · unfold merge_regions_and_departments
    induction departments with
    | nil => simp
    | cons d t ih =>
      rw [List.flatMap_cons, List.map_append, List.map_cons]
      obtain ⟨b, l', hbl⟩ :=
        List.exists_cons_of_ne_nil (leftJoinRegions_ne_nil regions d)
      have hb : b.code_dep = d.code :=
        (mem_leftJoinRegions (by
          rw [hbl]
          exact List.mem_cons_self _ _)).2.1
      rw [hbl, List.map_cons, hb]
      exact List.Sublist.cons₂ _
        (ih.trans (List.sublist_append_right _ _))
/-- Claim C7 witness: a department pointing at the absent region `"99"`
survives the merge with a null `name_reg`. -/
theorem areaMerger_unmatched_witness :
    (⟨some "99", none, some "01", some "Ain"⟩ : AreaRecord)
      ∈ merge_regions_and_departments demoRegions
        [⟨some "99", some "01", some "Ain"⟩] := by
  exact (areaMerger_unmatched demoRegions
    [⟨some "99", some "01", some "Ain"⟩]).1
    ⟨some "99", some "01", some "Ain"⟩ (by decide) (by decide)

/-! ### RegionAggregator lemmas, claims C3 and C10 -/

/-- Summing an indicator over keys not containing the key gives 0. -/
lemma sum_map_ite_zero (K : List String) (a : String) (v : Int)
    (ha : a ∉ K) :
    (K.map (fun k => if a == k then v else 0)).sum = 0 := by
  induction K with
  | nil => rfl
  | cons k t ih =>
    rw [List.map_cons, List.sum_cons]
    have h1 : ¬a = k := fun h => ha (List.mem_cons.mpr (Or.inl h))
    have h2 : a ∉ t := fun h => ha (List.mem_cons.mpr (Or.inr h))
    rw [if_neg (fun hc => h1 (eq_of_beq hc)), ih h2, add_zero]

/-- Summing an indicator over a duplicate-free key list containing the
key gives the value once. -/
lemma sum_map_ite_single (K : List String) (hnd : K.Nodup) (a : String)
    (ha : a ∈ K) (v : Int) :
    (K.map (fun k => if a == k then v else 0)).sum = v := by
  induction K with
  | nil => cases ha
  | cons k t ih =>
    rw [List.nodup_cons] at hnd
    rw [List.map_cons, List.sum_cons]
    rcases List.mem_cons.mp ha with h | h
    · subst h
      rw [if_pos (by simp), sum_map_ite_zero t a v hnd.1, add_zero]
    · have hak : ¬a = k := fun he => hnd.1 (he ▸ h)
      rw [if_neg (fun hc => hak (eq_of_beq hc)), ih hnd.2 h, zero_add]

/-- Summing a column group-by-group over a duplicate-free list of keys
covering every row gives the plain column sum. -/
lemma fiber_sum (rows : List ReferendumAreaRow) (K : List String)
    (hnd : K.Nodup) (hcover : ∀ r ∈ rows, r.code_reg ∈ K)
    (val : ReferendumAreaRow → Int) :
    (K.map (fun k => ((groupRows rows k).map val).sum)).sum
      = (rows.map val).sum := by
  induction rows with
  | nil => simp [groupRows]
  | cons r t ih =>
    have hstep : ∀ k ∈ K,
        ((groupRows (r :: t) k).map val).sum
          = (if r.code_reg == k then val r else 0)
            + ((groupRows t k).map val).sum := by
      intro k _
      unfold groupRows
      rw [List.filter_cons]
      split
      · rw [List.map_cons, List.sum_cons]
      · rw [zero_add]
    rw [List.map_congr_left hstep, List.sum_map_add,
      sum_map_ite_single K hnd r.code_reg (hcover r (List.mem_cons_self r t)) (val r),
      List.map_cons, List.sum_cons,
      ih (fun x hx => hcover x (List.mem_cons_of_mem r hx))]

/-- The output's index column is exactly the sorted distinct key list. -/
lemma aggregator_map_code_reg (rows : List ReferendumAreaRow) :
    (compute_referendum_result_by_regions rows).map RegionResult.code_reg
      = regionKeys rows := by
  unfold compute_referendum_result_by_regions
  rw [List.map_map]
  have hid : (RegionResult.code_reg ∘ fun k => aggGroup k (groupRows rows k))
      = id := rfl
  rw [hid, List.map_id]

/-- A key is a group key exactly when some input row carries it. -/
lemma mem_regionKeys {rows : List ReferendumAreaRow} {k : String} :
    k ∈ regionKeys rows ↔ k ∈ rows.map ReferendumAreaRow.code_reg := by
  unfold regionKeys
  rw [Finset.mem_sort, List.mem_toFinset]

/-! ### Claim C3 -/

/-- Claim C3: the aggregator emits exactly one row per distinct
`code_reg` (duplicate-free index column, with exactly the input's keys);
each output row takes `name_reg` from the first row of its group and
each numeric column as the arithmetic sum over its group; the total of
`Registered` is preserved. -/
theorem aggregator_sums (rows : List ReferendumAreaRow) :
    ((compute_referendum_result_by_regions rows).map RegionResult.code_reg).Nodup
  ∧ (∀ k : String,
      k ∈ (compute_referendum_result_by_regions rows).map RegionResult.code_reg
        ↔ k ∈ rows.map ReferendumAreaRow.code_reg)
  ∧ (∀ res ∈ compute_referendum_result_by_regions rows,
      ∃ r0, (groupRows rows res.code_reg).head? = some r0
        ∧ res.name_reg = r0.name_reg
        ∧ res.registered
            = ((groupRows rows res.code_reg).map ReferendumAreaRow.registered).sum
        ∧ res.abstentions
            = ((groupRows rows res.code_reg).map ReferendumAreaRow.abstentions).sum
        ∧ res.nulls
            = ((groupRows rows res.code_reg).map ReferendumAreaRow.nulls).sum
        ∧ res.choiceA
            = ((groupRows rows res.code_reg).map ReferendumAreaRow.choiceA).sum
        ∧ res.choiceB
            = ((groupRows rows res.code_reg).map ReferendumAreaRow.choiceB).sum)
  ∧ ((compute_referendum_result_by_regions rows).map RegionResult.registered).sum
      = (rows.map ReferendumAreaRow.registered).sum := by
  refine ⟨?_, ?_, ?_, ?_⟩
  · rw [aggregator_map_code_reg]
    exact Finset.sort_nodup _ _
  · intro k
    rw [aggregator_map_code_reg]
    exact mem_regionKeys
  · intro res hres
    rcases List.mem_map.mp hres with ⟨k, hk, hres⟩
    subst hres
    have hkmem : k ∈ rows.map ReferendumAreaRow.code_reg := mem_regionKeys.mp hk
    rcases List.mem_map.mp hkmem with ⟨r, hr, hrk⟩
    have hgr : r ∈ groupRows rows k :=
      List.mem_filter.mpr ⟨hr, by simp [hrk]⟩
    obtain ⟨r0, l', hg⟩ := List.exists_cons_of_ne_nil (List.ne_nil_of_mem hgr)
    refine ⟨r0, ?_, ?_, rfl, rfl, rfl, rfl, rfl⟩
    · show (groupRows rows k).head? = some r0
      rw [hg]
      rfl
    · show (aggGroup k (groupRows rows k)).name_reg = r0.name_reg
      unfold aggGroup
      rw [hg]
      rfl
  · have hcol : (compute_referendum_result_by_regions rows).map RegionResult.registered
        = (regionKeys rows).map
            (fun k => ((groupRows rows k).map ReferendumAreaRow.registered).sum) := by
      unfold compute_referendum_result_by_regions
      rw [List.map_map]
      rfl
    rw [hcol]
    exact fiber_sum rows (regionKeys rows) (Finset.sort_nodup _ _)
      (fun r hr => mem_regionKeys.mpr (List.mem_map_of_mem _ hr)) _
/-- Claim C3 witness: on the two demonstration rows of region `84`
(`Registered` 100 and 200), the single output row takes its name from
the first row of the group and its `Registered` is the group sum,
300. -/
theorem aggregator_sums_witness :
    ∃ r0, (groupRows demoAggRows "84").head? = some r0
      ∧ (aggGroup "84" (groupRows demoAggRows "84")).name_reg = r0.name_reg
      ∧ (aggGroup "84" (groupRows demoAggRows "84")).registered
          = ((groupRows demoAggRows "84").map ReferendumAreaRow.registered).sum
      ∧ (aggGroup "84" (groupRows demoAggRows "84")).registered = 300 := by
  have hkeys : regionKeys demoAggRows = ["84"] := by
    unfold regionKeys demoAggRows
    simp
  have hout : compute_referendum_result_by_regions demoAggRows
      = [aggGroup "84" (groupRows demoAggRows "84")] := by
    unfold compute_referendum_result_by_regions
    rw [hkeys]
    rfl
  obtain ⟨r0, h1, h2, h3, _⟩ := (aggregator_sums demoAggRows).2.2.1
    (aggGroup "84" (groupRows demoAggRows "84"))
    (by
      rw [hout]
      exact List.mem_singleton_self _)
  exact ⟨r0, h1, h2, h3, h3.trans (by decide)⟩

/-! ### Claim C10 -/

/-- Claim C10: the aggregator's output is keyed by `code_reg` with a
duplicate-free index, and its rows appear in strictly ascending
`code_reg` order (the group-by sorts the grouping key). -/
theorem aggregator_key_order (rows : List ReferendumAreaRow) :
    List.Sorted (fun a b => a < b)
      ((compute_referendum_result_by_regions rows).map RegionResult.code_reg)
  ∧ ((compute_referendum_result_by_regions rows).map RegionResult.code_reg).Nodup := by
  rw [aggregator_map_code_reg]
  exact ⟨Finset.sort_sorted_lt _, Finset.sort_nodup _ _⟩

/-! ### Claim C6 -/

/-- When exactly one area record matches a referendum row's code, the
row's block of the merge is that single combined row. -/
lemma joinAreas_of_filter_eq {areas : List AreaRecord} {r : ReferendumRow}
    {w x y z : Option String}
    (h : areas.filter (fun a => a.code_dep == some (refCodeDep r))
      = [⟨w, x, y, z⟩]) :
    joinAreas areas r = [mkJoined r (refCodeDep r) w x z] := by
  unfold joinAreas
  rw [h]
  rfl

/-- Re-joining a list of complete, `'Z'`-free, consistently coded rows
against an area table that resolves each `code_dep` to exactly its own
area fields reproduces the list. -/
lemma rejoin (a2 : List AreaRecord) : ∀ l : List JoinedRow,
    (∀ row ∈ l, rowComplete row = true) →
    (∀ row ∈ l, containsChar (astypeStr row.dep_code) 'Z' = false) →
    (∀ row ∈ l, row.code_dep = refCodeDep (projRef row)) →
    (∀ row ∈ l, a2.filter (fun a => a.code_dep == some row.code_dep)
        = [⟨row.code_reg, row.name_reg, some row.code_dep, row.name_dep⟩]) →
    merge_referendum_and_areas (l.map projRef) a2 = l := by
  intro l
  induction l with
  | nil =>
    intro _ _ _ _
    rfl
  | cons row t ih =>
    intro hcomp hz hcd hid
    have hrow_mem := List.mem_cons_self row t
    have hfz : filterZ ((row :: t).map projRef)
        = projRef row :: filterZ (t.map projRef) := by
      rw [List.map_cons]
      unfold filterZ
      rw [List.filter_cons, if_pos ?hpos]
      case hpos =>
        show (!containsChar (astypeStr row.dep_code) 'Z') = true
        rw [hz row hrow_mem]
        rfl
    have hfil : a2.filter (fun a => a.code_dep == some (refCodeDep (projRef row)))
        = [⟨row.code_reg, row.name_reg, some row.code_dep, row.name_dep⟩] := by
      rw [← hcd row hrow_mem]
      exact hid row hrow_mem
    have ht := ih (fun x hx => hcomp x (List.mem_cons_of_mem row hx))
      (fun x hx => hz x (List.mem_cons_of_mem row hx))
      (fun x hx => hcd x (List.mem_cons_of_mem row hx))
      (fun x hx => hid x (List.mem_cons_of_mem row hx))
    unfold merge_referendum_and_areas at ht
    show List.filter rowComplete
        ((filterZ ((row :: t).map projRef)).flatMap (joinAreas a2)) = row :: t
    rw [hfz, List.flatMap_cons, List.filter_append, joinAreas_of_filter_eq hfil, ht]
    have hone : mkJoined (projRef row) (refCodeDep (projRef row))
        row.code_reg row.name_reg row.name_dep = row := by
      rw [← hcd row hrow_mem]
      cases row
      rfl
    rw [hone, List.filter_cons, if_pos (hcomp row hrow_mem)]
    rfl

/-- Claim C6: re-running `merge_referendum_and_areas` on its own output
(its referendum-side columns), against any area table that resolves each
output `code_dep` to exactly the area fields already joined to it (the
"identity area join"), returns the same rows. -/
theorem joiner_idempotent (referendum : List ReferendumRow)
    (areas a2 : List AreaRecord)
    (hid : ∀ row ∈ merge_referendum_and_areas referendum areas,
        a2.filter (fun a => a.code_dep == some row.code_dep)
          = [⟨row.code_reg, row.name_reg, some row.code_dep, row.name_dep⟩]) :
    merge_referendum_and_areas
        ((merge_referendum_and_areas referendum areas).map projRef) a2
      = merge_referendum_and_areas referendum areas :=
  rejoin a2 _ (fun _ h => (mem_merge_referendum_and_areas h).1)
    (fun _ h => (mem_merge_referendum_and_areas h).2.1)
    (fun _ h => (mem_merge_referendum_and_areas h).2.2)
    hid
/-- Claim C6 witness: re-running the joiner on its own output for the
demonstration tables, with the demonstration area table as the identity
join, reproduces the output. -/
theorem joiner_idempotent_witness :
    merge_referendum_and_areas
        ((merge_referendum_and_areas demoReferendum demoAreas).map projRef)
        demoAreas
      = merge_referendum_and_areas demoReferendum demoAreas :=
  joiner_idempotent demoReferendum demoAreas demoAreas (by decide)

/-! ### Claim C8 -/

/-- Claim C8: for non-negative counts, the per-row ratio of
`plot_referendum_map` is `Choice A / (Choice A + Choice B)`; a zero
denominator yields the undefined value NaN — the computation is total,
no exception is raised. -/
theorem renderer_ratio (a b : Int) (ha : 0 ≤ a) (hb : 0 ≤ b) :
    ((a : ℚ) + (b : ℚ) = 0 → choiceRatio a b = PandasFloat.nan)
  ∧ ((a : ℚ) + (b : ℚ) ≠ 0 →
      choiceRatio a b = PandasFloat.val ((a : ℚ) / ((a : ℚ) + (b : ℚ)))) := by
  constructor
  · intro h0
    have haq : (a : ℚ) = 0 := by
      have ha' : (0 : ℚ) ≤ (a : ℚ) := by exact_mod_cast ha
      have hb' : (0 : ℚ) ≤ (b : ℚ) := by exact_mod_cast hb
      linarith
    unfold choiceRatio floatDiv
    rw [if_pos h0, if_pos haq]
  · intro h0
    unfold choiceRatio floatDiv
    rw [if_neg h0]
/-- Claim C8 witness: a row with `Choice A = Choice B = 0` gets the NaN
ratio. -/
theorem renderer_ratio_witness : choiceRatio 0 0 = PandasFloat.nan :=
  (renderer_ratio 0 0 (le_refl 0) (le_refl 0)).1 (by norm_num)

end PandasQuestions
